import Mathlib

/-!
A verification development for the two data-analysis notebooks of this
repository: the SMF 110 / CICS monitoring notebook
(`SMF/SMF110_Spark_Python3.ipynb`) and the word-count notebook bundled with
it.  Dataframes are embedded shallowly as lists of records, numeric columns
as rationals and integers, and each notebook cell as a pure function on
those lists.  Claims about the spec are stated and settled as theorems at
the end of the file.
-/

namespace SMF

/-- A row of the `smf110_df` dataframe after extraction: the eleven columns
selected by the Spark path (`filtered_df.select(...)`), with the types the
data-cleaning cell establishes (`TRANNUM`/`USRCPUT_COUNT` integer,
`USRCPUT_TIMER` float modelled as `ℚ`, `SMFMNRST` a millisecond
timestamp). -/
structure Row where
  SMFMNSPN : String
  TRAN : String
  TRANNUM : Int
  SMF_SID : String
  USRCPUT_TIMER : Rat
  USRCPUT_FLAG : Int
  USRCPUT_COUNT : Int
  SMFMNRSD : Int
  SMFMNRST : Int
  DB2REQCT : Int
  WMQREQCT : Int
deriving DecidableEq, Repr

/-- Substring test on character lists: `containsSub pat l` is true iff `pat`
occurs contiguously inside `l`.  This is the semantics of pandas
`Series.str.contains` on a pattern with no regex metacharacters. -/
def containsSub (pat : List Char) : List Char → Bool
  | [] => pat.isEmpty
  | c :: rest => pat.isPrefixOf (c :: rest) || containsSub pat rest

/-- Model of `str.contains` at the `String` level. -/
def strContains (s pat : String) : Bool :=
  containsSub pat.data s.data

/-- The data-cleaning filter
`smf110_df = smf110_df[smf110_df.SMFMNSPN.str.contains("CICS") == True]`. -/
def cicsFilter (df : List Row) : List Row :=
  df.filter (fun r => strContains r.SMFMNSPN "CICS")

/-- Match for the regex branch `^Y[1-5]95$`: the whole string is `Y`, a digit
between 1 and 5, then `95`. -/
def y95Match : List Char → Bool
  | ['Y', c, '9', '5'] => decide ('1' ≤ c) && decide (c ≤ '5')
  | _ => false

/-- The transaction filter `smf110_df['TRAN'].str.contains('^Y[1-5]95$|MAP')`:
`re.search` succeeds iff the anchored alternative matches the whole string or
`MAP` occurs as a substring. -/
def tranMatch (s : String) : Bool :=
  y95Match s.data || strContains s "MAP"

/-- The region filter `smf110_df['SMFMNSPN'].str.contains('CICS3AAB|CICS6AAA')`. -/
def regionMatch (s : String) : Bool :=
  strContains s "CICS3AAB" || strContains s "CICS6AAA"

/-- The two filters of the `smf110_filtered_tran_df` cell applied to the
CICS-filtered dataframe. -/
def tranRegionFilter (df : List Row) : List Row :=
  (df.filter (fun r => tranMatch r.TRAN)).filter (fun r => regionMatch r.SMFMNSPN)

/-- Model of `smf110_filtered_tran_df` as a function of the loaded (typed, uncleaned
in the sense of un-filtered) dataframe. -/
def filteredTranDf (df : List Row) : List Row :=
  tranRegionFilter (cicsFilter df)

/-- First-occurrence deduplication, with an accumulator of already seen
values; models the key set of a Python dict / `collections.Counter` built by
a left-to-right scan. -/
def foAux [DecidableEq α] (seen : List α) : List α → List α
  | [] => []
  | x :: xs => if x ∈ seen then foAux seen xs else x :: foAux (x :: seen) xs

/-- The distinct values of a list in order of first occurrence. -/
def fo [DecidableEq α] (l : List α) : List α :=
  foAux [] l

/-- Group-by-and-sum: for each distinct key of `df` (under `key`), the sum of
`val` over exactly the rows with that key.  `pandas.groupby(...).sum()`
additionally sorts the group keys, which only permutes the association list
and is irrelevant to every claim below. -/
def groupBySum [DecidableEq κ] (key : Row → κ) (val : Row → Rat) (df : List Row) :
    List (κ × Rat) :=
  (fo (df.map key)).map
    (fun g => (g, ((df.filter (fun r => decide (key r = g))).map val).sum))

/-- Model of `cpu_time_per_region = smf110_df.groupby(['SMFMNSPN'])['USRCPUT_TIMER'].sum()`,
as a function of the already CICS-filtered dataframe. -/
def cpu_time_per_region (df : List Row) : List (String × Rat) :=
  groupBySum (fun r => r.SMFMNSPN) (fun r => r.USRCPUT_TIMER) df

/-- The total of the `USRCPUT_TIMER` column of a dataframe. -/
def timerTotal (df : List Row) : Rat :=
  (df.map (fun r => r.USRCPUT_TIMER)).sum

/-- The CPU-percentage cell: group sums of `USRCPUT_TIMER` over
`smf110_filtered_tran_df` by `(SMF_SID, SMFMNSPN)` (the
`pivot_table(..., aggfunc=np.sum)`), each divided by
`orig_smf110_df['USRCPUT_TIMER'].sum()` — the total over the entire original
unfiltered dataframe `df`. -/
def cpu_percentage_per_region (df : List Row) : List ((String × String) × Rat) :=
  (groupBySum (fun r => (r.SMF_SID, r.SMFMNSPN)) (fun r => r.USRCPUT_TIMER)
      (filteredTranDf df)).map
    (fun p => (p.1, p.2 / timerTotal df))

/-- The sum of all reported CPU percentages. -/
def percSum (df : List Row) : Rat :=
  ((cpu_percentage_per_region df).map (fun p => p.2)).sum

/-- The column list of the database-pull path: the literal `select` of the
Spark cell (`filtered_df = joined_df.select(...)`). -/
def sparkSelectColumns : List String :=
  ["SMFMNSPN", "TRAN", "TRANNUM", "SMF_SID", "USRCPUT_TIMER", "USRCPUT_FLAG",
   "USRCPUT_COUNT", "SMFMNRSD", "SMFMNRST", "DB2REQCT", "WMQREQCT"]

/-- Modelled from the spec: the sample input `smf110.json` is not part of
this repository (only referenced by `pd.read_json(SMF110_PATH)`), and the
spec states the JSON input is "a JSON file with a fixed set of column
names", the same columns as the database pull yields.  Its column list is
therefore taken to be exactly that fixed set. -/
def smf110JsonColumns : List String :=
  ["SMFMNSPN", "TRAN", "TRANNUM", "SMF_SID", "USRCPUT_TIMER", "USRCPUT_FLAG",
   "USRCPUT_COUNT", "SMFMNRSD", "SMFMNRST", "DB2REQCT", "WMQREQCT"]

/-- Model of `smf110_df = filtered_df.limit(80000).toPandas()`: the Spark side hands
the analysis at most the first 80000 rows of the joined and selected
table. -/
def sparkToPandas (t : List Row) : List Row :=
  t.take 80000

/-- The descriptive-analysis outputs of the notebook computed from the
in-memory pandas dataframe: row count, total CPU time of the CICS-filtered
frame, the per-region CPU sums, and the per-region CPU percentages.  All of
them are pandas/numpy computations; none touches Spark. -/
def notebookAnalysis (pdf : List Row) :
    Nat × Rat × List (String × Rat) × List ((String × String) × Rat) :=
  ((cicsFilter pdf).length,
   timerTotal (cicsFilter pdf),
   cpu_time_per_region (cicsFilter pdf),
   cpu_percentage_per_region pdf)

/-- The end-to-end Spark-path pipeline: everything after `toPandas` is a
pure pandas computation on the materialized rows. -/
def pipelineFromSpark (t : List Row) :
    Nat × Rat × List (String × Rat) × List ((String × String) × Rat) :=
  notebookAnalysis (sparkToPandas t)

/-! ### The transaction-rate cell (`cics_trans_df`) -/

/-- A key of the pivot-table `MultiIndex`: `(SMF_SID, SMFMNSPN, DATETIME_SECOND)`. -/
abbrev PKey := String × String × Nat

/-- A `(system id, CICS region)` pair, the column labels of `cics_trans_df`. -/
abbrev RKey := String × String

/-- Column `DATETIME_SECOND`: the `.second` field of the `SMFMNRST` timestamp, whose
unit is milliseconds (`pd.to_datetime(..., unit='ms')`). -/
def dtSecond (r : Row) : Nat :=
  ((r.SMFMNRST.ediv 1000).emod 60).toNat

/-- The pivot index triple of a row. -/
def rowKey (r : Row) : PKey :=
  (r.SMF_SID, r.SMFMNSPN, dtSecond r)

/-- Lexicographic order on pivot keys, the order in which pandas sorts a
`MultiIndex`. -/
def keyLeP (a b : PKey) : Prop :=
  toLex (a.1, toLex (a.2.1, a.2.2)) ≤ toLex (b.1, toLex (b.2.1, b.2.2))

instance : DecidableRel keyLeP := fun a b => by unfold keyLeP; infer_instance

instance : IsTotal PKey keyLeP := ⟨fun _ _ => le_total _ _⟩

instance : IsTrans PKey keyLeP := ⟨fun _ _ _ h₁ h₂ => le_trans h₁ h₂⟩

/-- The (sorted, duplicate-free) index of
`trans_rate_per_region = ...pivot_table(index=['SMF_SID','SMFMNSPN','DATETIME_SECOND'], ...)`. -/
def pivotKeys (df : List Row) : List PKey :=
  List.insertionSort keyLeP (df.map rowKey).dedup

/-- The entry of the pivot table at index `k`, column `t`: with `aggfunc=len`
the number of rows with that index triple and that `TRAN`, and `0` after
`fillna(0)` where no such row exists. -/
def pivotVal (df : List Row) (k : PKey) (t : String) : Rat :=
  ((df.filter (fun r => decide (rowKey r = k ∧ r.TRAN = t))).length : Rat)

/-- Model of `sys_id = trans_rate_per_region.index.levels[0]`: the sorted distinct
system ids. -/
def sysIds (df : List Row) : List String :=
  List.insertionSort (fun a b => a ≤ b) ((pivotKeys df).map (fun k => k.1)).dedup

/-- Model of `cics_regions = trans_rate_per_region.index.get_level_values(1)`: the
region of every index row, duplicates included. -/
def regionsOf (df : List Row) : List String :=
  (pivotKeys df).map (fun k => k.2.1)

/-- One step of `num_days_cics_regions[key] = num_days_cics_regions.get(key, 0) + 1`
on an insertion-ordered dict. -/
def bump (k : RKey) : List (RKey × Nat) → List (RKey × Nat)
  | [] => [(k, 1)]
  | (j, n) :: rest => if j = k then (j, n + 1) :: rest else (j, n) :: bump k rest

/-- The `num_days_cics_regions` dict built by the nested
`for j in range(len(sys_id)): for i in range(len(cics_regions)):` loops. -/
def numDays (df : List Row) : List (RKey × Nat) :=
  (sysIds df).foldl
    (fun d s => (regionsOf df).foldl (fun d2 r => bump (s, r) d2) d) []

/-- The consecutive `iloc[start_ind:end_ind,:]` slices taken by the second
loop, in dict order: each dict entry `(k2, n)` consumes the next `n` index
rows. -/
def slicesAux : List PKey → List (RKey × Nat) → List (RKey × List PKey)
  | _, [] => []
  | ks, (k2, n) :: rest => (k2, ks.take n) :: slicesAux (ks.drop n) rest

/-- The same slices with the running `start_ind` made explicit, exactly as
the source loop keeps it. -/
def slicesFor (keys : List PKey) : List (RKey × Nat) → Nat → List (RKey × List PKey)
  | [], _ => []
  | (k2, n) :: rest, start =>
    (k2, (keys.drop start).take n) :: slicesFor keys rest (start + n)

/-- Model of `df.apply(lambda x: np.mean(x))` on one column over a row slice:
`np.mean` of an empty slice is NaN, modelled as `none`. -/
def colMean (df : List Row) (ks : List PKey) (t : String) : Option Rat :=
  match ks with
  | [] => none
  | _ => some ((ks.map (fun k => pivotVal df k t)).sum / (ks.length : Rat))

/-- The `cics_trans_df` dataframe produced by the loop cell: the entry at
column `(sys, region)` and row `t` (a transaction type), as a function of
the cell's input dataframe `df` (`smf110_filtered_tran_df`). -/
def cics_trans_df (df : List Row) (k2 : RKey) (t : String) : Option Rat :=
  match (slicesFor (pivotKeys df) (numDays df) 0).lookup k2 with
  | none => none
  | some ks => colMean df ks t

/-- The single grouped-mean library call the claim compares the loop against
(`trans_rate_per_region.groupby(level=['SMF_SID','SMFMNSPN']).mean()`):
for each `(sys, region)` pair, the mean of each `TRAN` column over exactly
the pivot rows of that pair.  This definition follows the claim's words, to
be compared with `cics_trans_df`, which follows the source. -/
def groupedMean (df : List Row) (k2 : RKey) (t : String) : Option Rat :=
  colMean df ((pivotKeys df).filter (fun k => decide (k.1 = k2.1 ∧ k.2.1 = k2.2))) t

/-! ### The word-count notebook -/

/-- Python `str.split()` with no argument: split on runs of whitespace,
discarding empty fields. -/
def pySplit (s : String) : List String :=
  (s.split Char.isWhitespace).filter (fun w => !w.isEmpty)

/-- Model of `' '.join(df['text'])`. -/
def joinedText (lines : List String) : String :=
  String.intercalate " " lines

/-- The token stream of `' '.join(df['text']).split()`. -/
def wcTokens (lines : List String) : List String :=
  pySplit (joinedText lines)

/-- Model of `Counter(toks)` as an association list: each distinct token, in first
occurrence order, with its multiplicity. -/
def counterPairs (toks : List String) : List (String × Nat) :=
  (fo toks).map (fun w => (w, toks.count w))

/-- The order used by `Counter.most_common()`: non-increasing count. -/
def geCntP (a b : String × Nat) : Prop := b.2 ≤ a.2

instance : DecidableRel geCntP := fun a b => by unfold geCntP; infer_instance

instance : IsTotal (String × Nat) geCntP := ⟨fun a b => le_total b.2 a.2⟩

instance : IsTrans (String × Nat) geCntP := ⟨fun _ _ _ h₁ h₂ => le_trans h₂ h₁⟩

/-- Model of `Counter.most_common()`: the pairs sorted by count, largest first
(a stable sort, though no claim depends on tie order). -/
def most_common (ps : List (String × Nat)) : List (String × Nat) :=
  List.insertionSort geCntP ps

/-- Model of `word_c = Counter(' '.join(df['text']).split()).most_common()`. -/
def word_c (lines : List String) : List (String × Nat) :=
  most_common (counterPairs (wcTokens lines))

/-! ### Dynamic (dtype-level) model for the casts and error propagation -/

/-- A pandas cell value with its dynamic type. -/
inductive PValue where
  | VInt (n : Int)
  | VFloat (q : Rat)
  | VStr (s : String)
  | VDateTime (ms : Int)
deriving DecidableEq, Repr

def PValue.isVInt : PValue → Bool
  | .VInt _ => true
  | _ => false

def PValue.isVFloat : PValue → Bool
  | .VFloat _ => true
  | _ => false

def PValue.isVDateTime : PValue → Bool
  | .VDateTime _ => true
  | _ => false

/-- The errors the underlying libraries raise on malformed input. -/
inductive PyError where
  | fileNotFound (path : String)
  | keyError (col : String)
  | valueError
deriving DecidableEq, Repr

/-- A row with dynamically typed cells, for the columns the cleaning cell
touches or later cells read. -/
structure DRow where
  dSMFMNSPN : PValue
  dTRAN : PValue
  dTRANNUM : PValue
  dSMF_SID : PValue
  dUSRCPUT_TIMER : PValue
  dUSRCPUT_COUNT : PValue
  dSMFMNRST : PValue
deriving DecidableEq, Repr

/-- A dynamically typed dataframe: its column-name list (for `KeyError` on a
missing column) and its rows. -/
structure DynDf where
  cols : List String
  rows : List DRow
deriving DecidableEq, Repr

/-- Truncation toward zero, as numpy's float-to-int cast rounds. -/
def ratTrunc (q : Rat) : Int :=
  q.num.tdiv (q.den : Int)

/-- Model of `astype(int)` on one cell. -/
def astypeInt : PValue → Except PyError PValue
  | .VInt n => .ok (.VInt n)
  | .VFloat q => .ok (.VInt (ratTrunc q))
  | .VStr s =>
    match s.toInt? with
    | some n => .ok (.VInt n)
    | none => .error .valueError
  | .VDateTime n => .ok (.VInt n)

/-- Model of `astype(float)` on one cell. -/
def astypeFloat : PValue → Except PyError PValue
  | .VInt n => .ok (.VFloat (n : Rat))
  | .VFloat q => .ok (.VFloat q)
  | .VStr s =>
    match s.toInt? with
    | some n => .ok (.VFloat (n : Rat))
    | none => .error .valueError
  | .VDateTime _ => .error .valueError

/-- Model of `pd.to_datetime(x, unit='ms')` on one cell. -/
def toDatetimeMs : PValue → Except PyError PValue
  | .VInt n => .ok (.VDateTime n)
  | .VFloat q => .ok (.VDateTime (ratTrunc q))
  | .VDateTime n => .ok (.VDateTime n)
  | .VStr _ => .error .valueError

/-- Column access `df['c']`: raises `KeyError` when the column is absent. -/
def requireCol (d : DynDf) (c : String) : Except PyError Unit :=
  if c ∈ d.cols then .ok () else .error (.keyError c)

/-- Model of `smf110_df['SMFMNRST'] = pd.to_datetime(smf110_df['SMFMNRST'], unit='ms')`
applied rowwise; the first failing cell's error is the operation's error. -/
def mapDatetimeRows : List DRow → Except PyError (List DRow)
  | [] => .ok []
  | r :: rs =>
    match toDatetimeMs r.dSMFMNRST with
    | .error e => .error e
    | .ok v =>
      match mapDatetimeRows rs with
      | .error e => .error e
      | .ok rest => .ok ({ r with dSMFMNRST := v } :: rest)

/-- The three casts of the data-cleaning cell on one row. -/
def castRow (r : DRow) : Except PyError DRow :=
  match astypeInt r.dTRANNUM with
  | .error e => .error e
  | .ok tn =>
    match astypeFloat r.dUSRCPUT_TIMER with
    | .error e => .error e
    | .ok ut =>
      match astypeInt r.dUSRCPUT_COUNT with
      | .error e => .error e
      | .ok uc =>
        .ok { r with dTRANNUM := tn, dUSRCPUT_TIMER := ut, dUSRCPUT_COUNT := uc }

/-- The casts applied to every row. -/
def castRows : List DRow → Except PyError (List DRow)
  | [] => .ok []
  | r :: rs =>
    match castRow r with
    | .error e => .error e
    | .ok r2 =>
      match castRows rs with
      | .error e => .error e
      | .ok rest => .ok (r2 :: rest)

/-- The JSON path's `to_datetime` line followed by the data-cleaning cell's
three `astype` casts, with the column accesses checked. -/
def jsonThenClean (d : DynDf) : Except PyError DynDf :=
  match requireCol d "SMFMNRST" with
  | .error e => .error e
  | .ok _ =>
    match mapDatetimeRows d.rows with
    | .error e => .error e
    | .ok rows1 =>
      match requireCol d "TRANNUM" with
      | .error e => .error e
      | .ok _ =>
        match requireCol d "USRCPUT_TIMER" with
        | .error e => .error e
        | .ok _ =>
          match requireCol d "USRCPUT_COUNT" with
          | .error e => .error e
          | .ok _ =>
            match castRows rows1 with
            | .error e => .error e
            | .ok rows2 => .ok { cols := d.cols, rows := rows2 }

/-- Model of `pd.read_json(SMF110_PATH)` against an abstract file system `fs`:
a missing path raises the library's file-not-found error. -/
def read_json (fs : String → Option DynDf) (path : String) : Except PyError DynDf :=
  match fs path with
  | none => .error (.fileNotFound path)
  | some d => .ok d

/-- The JSON extraction followed by cleaning; no notebook code catches,
retries or translates errors, so each stage's error is the pipeline's. -/
def jsonPipeline (fs : String → Option DynDf) (path : String) : Except PyError DynDf :=
  match read_json fs path with
  | .error e => .error e
  | .ok d => jsonThenClean d

/-- Model of `get_credentials`: `open(CREDENTIALS_PATH)` then `f.readline()`. -/
def get_credentials (fs : String → Option (List String)) (path : String) :
    Except PyError String :=
  match fs path with
  | none => .error (.fileNotFound path)
  | some lines => .ok (lines.headD "")

/-- The Spark-path extraction: credentials first, then the bounded pull. -/
def sparkPipeline (fs : String → Option (List String)) (path : String)
    (table : List Row) : Except PyError (List Row) :=
  match get_credentials fs path with
  | .error e => .error e
  | .ok _ => .ok (sparkToPandas table)

/-- The dtype invariant the claim states for the cleaned dataframe. -/
def wellTyped (r : DRow) : Prop :=
  r.dTRANNUM.isVInt = true ∧ r.dUSRCPUT_TIMER.isVFloat = true ∧
  r.dUSRCPUT_COUNT.isVInt = true ∧ r.dSMFMNRST.isVDateTime = true

instance : DecidablePred wellTyped := fun r => by unfold wellTyped; infer_instance

/-- A string predicate applied to a dynamically typed cell; non-strings fail
the filter, as `str.contains(...) == True` drops NaN masks. -/
def dynStrField (v : PValue) (pred : String → Bool) : Bool :=
  match v with
  | .VStr s => pred s
  | _ => false

/-- The CICS-region filter on dynamic rows. -/
def dynCicsFilter (rows : List DRow) : List DRow :=
  rows.filter (fun r => dynStrField r.dSMFMNSPN (fun s => strContains s "CICS"))

/-- The transaction/region filters of the use-case section on dynamic rows. -/
def dynTranFilter (rows : List DRow) : List DRow :=
  (rows.filter (fun r => dynStrField r.dTRAN tranMatch)).filter
    (fun r => dynStrField r.dSMFMNSPN regionMatch)

/-! ### The notebook as a state machine, for the `orig_smf110_df` frame claim -/

/-- The notebook's variables that later cells assign to. -/
structure NbState where
  smf110 : List Row
  orig : List Row
  filteredTran : List Row
  datetimeSecond : List Nat
deriving DecidableEq, Repr

/-- The state right after extraction and type casts, before
`orig_smf110_df = smf110_df.copy(deep=True)`. -/
def loadState (df : List Row) : NbState :=
  { smf110 := df, orig := [], filteredTran := [], datetimeSecond := [] }

/-- Model of `orig_smf110_df = smf110_df.copy(deep=True)`. -/
def stepCopyOrig (st : NbState) : NbState :=
  { st with orig := st.smf110 }

/-- Model of `smf110_df = smf110_df[smf110_df.SMFMNSPN.str.contains("CICS") == True]`. -/
def stepCicsFilter (st : NbState) : NbState :=
  { st with smf110 := cicsFilter st.smf110 }

/-- The two `smf110_filtered_tran_df` filter assignments. -/
def stepTranFilter (st : NbState) : NbState :=
  { st with filteredTran := tranRegionFilter st.smf110 }

/-- Model of `smf110_filtered_tran_df['DATETIME_SECOND'] = ...apply(lambda x: x.second)`. -/
def stepAddDatetime (st : NbState) : NbState :=
  { st with datetimeSecond := st.filteredTran.map dtSecond }

/-- Every state-changing cell that runs after the deep copy. -/
def postCopySteps : List (NbState → NbState) :=
  [stepCicsFilter, stepTranFilter, stepAddDatetime]

/-- All states the notebook passes through from the copy onwards. -/
def statesAfterCopy (df : List Row) : List NbState :=
  List.scanl (fun st f => f st) (stepCopyOrig (loadState df)) postCopySteps

/-! ### Concrete dataframes for counterexamples and witnesses -/

/-- A row builder with the analysis-relevant fields explicit. -/
def mkRow (sid region tran : String) (ms : Int) (timer : Rat) : Row :=
  { SMFMNSPN := region, TRAN := tran, TRANNUM := 1, SMF_SID := sid,
    USRCPUT_TIMER := timer, USRCPUT_FLAG := 0, USRCPUT_COUNT := 1,
    SMFMNRSD := 0, SMFMNRST := ms, DB2REQCT := 0, WMQREQCT := 0 }

/-- A two-system dataframe on which the transaction-rate loop diverges from
the grouped mean: one pivot row for system `S1`, one for `S2`, sharing the
region, with different transaction counts in their one second. -/
def dfTwoSys : List Row :=
  [mkRow "S1" "CICS3AAB" "MAP" 0 1,
   { mkRow "S2" "CICS3AAB" "MAP" 0 1 with TRANNUM := 1 },
   { mkRow "S2" "CICS3AAB" "MAP" 0 1 with TRANNUM := 2 },
   { mkRow "S2" "CICS3AAB" "MAP" 0 1 with TRANNUM := 3 }]

/-- A single-system dataframe with two regions, for witnesses. -/
def dfOneSys : List Row :=
  [mkRow "S1" "CICS3AAB" "MAP" 0 1,
   mkRow "S1" "CICS3AAB" "MAP" 1000 1,
   mkRow "S1" "CICS6AAA" "MAP" 0 1]

/-- A dataframe whose non-CICS row carries a negative `USRCPUT_TIMER`: the
rows dropped by the filters lower the percentage denominator below the
reported group sums. -/
def dfNegDropped : List Row :=
  [mkRow "S1" "CICS3AAB" "MAP" 0 2,
   mkRow "S1" "PLEX" "Q" 0 (-1)]

/-- A dataframe with nonnegative timers on which the reported percentages
sum to 1/2, strictly below 1. -/
def dfHalf : List Row :=
  [mkRow "S1" "CICS3AAB" "MAP" 0 1,
   mkRow "S1" "PLEX" "Q" 0 1]

/-- A dynamically typed input dataframe whose casts all succeed. -/
def dynDfW : DynDf :=
  { cols := ["SMFMNSPN", "TRAN", "TRANNUM", "SMF_SID", "USRCPUT_TIMER",
             "USRCPUT_FLAG", "USRCPUT_COUNT", "SMFMNRSD", "SMFMNRST",
             "DB2REQCT", "WMQREQCT"],
    rows := [{ dSMFMNSPN := .VStr "CICS3AAB", dTRAN := .VStr "MAP",
               dTRANNUM := .VStr "12", dSMF_SID := .VStr "S1",
               dUSRCPUT_TIMER := .VInt 3, dUSRCPUT_COUNT := .VFloat (5 / 2),
               dSMFMNRST := .VInt 1000 }] }

/-- The row of `dynDfW` after cleaning. -/
def dynRowW2 : DRow :=
  { dSMFMNSPN := .VStr "CICS3AAB", dTRAN := .VStr "MAP",
    dTRANNUM := .VInt 12, dSMF_SID := .VStr "S1",
    dUSRCPUT_TIMER := .VFloat 3, dUSRCPUT_COUNT := .VInt 2,
    dSMFMNRST := .VDateTime 1000 }

/-- The cleaned form of `dynDfW`. -/
def dynDfW2 : DynDf :=
  { cols := dynDfW.cols, rows := [dynRowW2] }

end SMF

/-! ## Lemmas and claim theorems -/

namespace SMF

theorem containsSub_iff (pat l : List Char) :
    containsSub pat l = true ↔ ∃ l₁ l₂, l = l₁ ++ pat ++ l₂ := by
  induction l with
  | nil =>
    simp only [containsSub, List.isEmpty_iff]
    constructor
    · intro h
      exact ⟨[], [], by simp [h]⟩
    · rintro ⟨l₁, l₂, h⟩
      have h2 := (List.append_eq_nil.mp h.symm).1
      exact (List.append_eq_nil.mp h2).2
  | cons c rest ih =>
    simp only [containsSub, Bool.or_eq_true, List.isPrefixOf_iff_prefix, ih]
    constructor
    · rintro (⟨t, ht⟩ | ⟨l₁, l₂, h⟩)
      · exact ⟨[], t, by simp [ht.symm]⟩
      · exact ⟨c :: l₁, l₂, by simp [h]⟩
    · rintro ⟨l₁, l₂, h⟩
      match l₁, h with
      | [], h =>
        exact Or.inl ⟨l₂, by simpa using h.symm⟩
      | a :: l₁, h =>
        rw [List.cons_append, List.cons_append, List.cons.injEq] at h
        exact Or.inr ⟨l₁, l₂, h.2⟩

theorem strContains_iff (s pat : String) :
    strContains s pat = true ↔ ∃ p q : String, s = p ++ pat ++ q := by
  rw [strContains, containsSub_iff]
  constructor
  · rintro ⟨l₁, l₂, h⟩
    refine ⟨⟨l₁⟩, ⟨l₂⟩, ?_⟩
    apply String.ext
    simp only [String.data_append]
    exact h
  · rintro ⟨p, q, h⟩
    exact ⟨p.data, q.data, by simp [h, String.data_append]⟩

/-- Claim C3: a row is kept by the data-cleaning filter iff its `SMFMNSPN`
value contains `"CICS"` as a substring; a region merely containing (not
starting with) `"CICS"` is kept, so the filter is a containment test, not a
prefix test. -/
theorem claim_C3 :
    (∀ (df : List Row) (r : Row),
        r ∈ cicsFilter df ↔ r ∈ df ∧ ∃ p q : String, r.SMFMNSPN = p ++ "CICS" ++ q) ∧
    (mkRow "S1" "ACICS1" "T" 0 1 ∈ cicsFilter [mkRow "S1" "ACICS1" "T" 0 1] ∧
      String.isPrefixOf "CICS" "ACICS1" = false) := by
  refine ⟨fun df r => ?_, by with_unfolding_all decide, by with_unfolding_all decide⟩
  rw [cicsFilter, List.mem_filter, strContains_iff]

/-- Claim C4: the JSON extraction path and the database-pull path yield the
same fixed set of column names, in the same order, namely the eleven columns
of the Spark `select`. -/
theorem claim_C4 :
    smf110JsonColumns = sparkSelectColumns ∧
    sparkSelectColumns =
      ["SMFMNSPN", "TRAN", "TRANNUM", "SMF_SID", "USRCPUT_TIMER", "USRCPUT_FLAG",
       "USRCPUT_COUNT", "SMFMNRSD", "SMFMNRST", "DB2REQCT", "WMQREQCT"] :=
  ⟨rfl, rfl⟩

/-- Claim C5: the Spark engine only materializes at most 80000 rows into the
pandas dataframe, and the analysis results are a function of those
materialized rows alone — two source tables agreeing on their first 80000
rows give identical analysis outputs. -/
theorem claim_C5 :
    (∀ t : List Row, (sparkToPandas t).length ≤ 80000) ∧
    (∀ t₁ t₂ : List Row, t₁.take 80000 = t₂.take 80000 →
      pipelineFromSpark t₁ = pipelineFromSpark t₂) := by
  constructor
  · intro t
    simp only [sparkToPandas]
    exact List.length_take_le 80000 t
  · intro t₁ t₂ h
    simp [pipelineFromSpark, sparkToPandas, h]

/-- Witness for C5 at the empty table. -/
theorem claim_C5_witness :
    (sparkToPandas ([] : List Row)).length ≤ 80000 ∧
    pipelineFromSpark ([] : List Row) = pipelineFromSpark ([] : List Row) :=
  ⟨claim_C5.1 [], claim_C5.2 [] [] rfl⟩

/-! ### First-occurrence deduplication lemmas -/

theorem mem_foAux [DecidableEq α] (seen l : List α) (a : α) :
    a ∈ foAux seen l ↔ a ∈ l ∧ a ∉ seen := by
  induction l generalizing seen with
  | nil => simp [foAux]
  | cons x xs ih =>
    by_cases hx : x ∈ seen
    · rw [foAux, if_pos hx, ih, List.mem_cons]
      constructor
      · tauto
      · rintro ⟨rfl | h1, h2⟩
        · exact absurd hx h2
        · exact ⟨h1, h2⟩
    · rw [foAux, if_neg hx, List.mem_cons, ih, List.mem_cons, List.mem_cons]
      by_cases hax : a = x
      · subst hax; tauto
      · tauto

theorem nodup_foAux [DecidableEq α] (seen l : List α) : (foAux seen l).Nodup := by
  induction l generalizing seen with
  | nil => exact List.nodup_nil
  | cons x xs ih =>
    by_cases hx : x ∈ seen
    · rw [foAux, if_pos hx]; exact ih seen
    · rw [foAux, if_neg hx]
      refine List.Nodup.cons ?_ (ih _)
      intro hmem
      exact ((mem_foAux _ _ _).mp hmem).2 (List.mem_cons_self _ _)

theorem mem_fo [DecidableEq α] (l : List α) (a : α) : a ∈ fo l ↔ a ∈ l := by
  rw [fo, mem_foAux]; simp

theorem nodup_fo [DecidableEq α] (l : List α) : (fo l).Nodup :=
  nodup_foAux [] l

theorem foAux_congr [DecidableEq α] (s₁ s₂ l : List α) (h : ∀ a, a ∈ s₁ ↔ a ∈ s₂) :
    foAux s₁ l = foAux s₂ l := by
  induction l generalizing s₁ s₂ with
  | nil => rfl
  | cons x t ih =>
    by_cases hx : x ∈ s₁
    · rw [foAux, if_pos hx, foAux, if_pos ((h x).mp hx)]
      exact ih _ _ h
    · have hx2 : x ∉ s₂ := fun hh => hx ((h x).mpr hh)
      rw [foAux, if_neg hx, foAux, if_neg hx2]
      congr 1
      refine ih _ _ fun a => ?_
      rw [List.mem_cons, List.mem_cons, h a]

theorem foAux_filter [DecidableEq α] (x : α) (seen l : List α) :
    foAux (x :: seen) l = foAux seen (l.filter (fun y => decide (y ≠ x))) := by
  induction l generalizing seen with
  | nil => rfl
  | cons y t ih =>
    by_cases hyx : y = x
    · have h1 : y ∈ x :: seen := by rw [hyx]; exact List.mem_cons_self _ _
      rw [foAux, if_pos h1, List.filter_cons, if_neg (by simp [hyx])]
      exact ih seen
    · by_cases hys : y ∈ seen
      · rw [foAux, if_pos (List.mem_cons_of_mem _ hys), List.filter_cons,
          if_pos (by simp [hyx]), foAux, if_pos hys]
        exact ih seen
      · have hny : y ∉ x :: seen := by
          rw [List.mem_cons]
          rintro (h | h)
          · exact hyx h
          · exact hys h
        rw [foAux, if_neg hny, List.filter_cons, if_pos (by simp [hyx]), foAux,
          if_neg hys]
        congr 1
        have swap : foAux (y :: x :: seen) t = foAux (x :: y :: seen) t := by
          refine foAux_congr _ _ _ fun a => ?_
          simp only [List.mem_cons]
          tauto
        rw [swap]
        exact ih (y :: seen)

theorem fo_cons [DecidableEq α] (x : α) (xs : List α) :
    fo (x :: xs) = x :: fo (xs.filter (fun y => decide (y ≠ x))) := by
  rw [fo, foAux, if_neg (List.not_mem_nil x)]
  rw [fo, ← foAux_filter]

/-! ### Association-list and grouped-sum lemmas -/

theorem lookup_map_self [DecidableEq κ] (F : κ → β) (as : List κ) (hnd : as.Nodup)
    (g : κ) :
    (as.map (fun a => (a, F a))).lookup g = if g ∈ as then some (F g) else none := by
  induction as with
  | nil => simp [List.lookup]
  | cons a as ih =>
    rcases List.nodup_cons.mp hnd with ⟨ha, hnd2⟩
    by_cases hg : g = a
    · subst hg
      simp [List.lookup, List.mem_cons]
    · have hba : (g == a) = false := beq_eq_false_iff_ne.mpr hg
      simp only [List.map_cons, List.lookup, hba, ih hnd2, List.mem_cons]
      rcases Decidable.em (g ∈ as) with h | h
      · simp [h, hg]
      · simp [h, hg]

theorem sum_filter_add_sum_filter_not (p : α → Bool) (f : α → Rat) (l : List α) :
    ((l.filter p).map f).sum + ((l.filter (fun a => !p a)).map f).sum = (l.map f).sum := by
  induction l with
  | nil => simp
  | cons x xs ih =>
    by_cases hx : p x = true
    · rw [List.filter_cons, if_pos hx, List.filter_cons, if_neg (by simp [hx]),
        List.map_cons, List.sum_cons, List.map_cons, List.sum_cons]
      rw [← ih]; ring
    · rw [List.filter_cons, if_neg (by simp [hx]), List.filter_cons, if_pos (by simp [hx]),
        List.map_cons, List.sum_cons, List.map_cons, List.sum_cons]
      rw [← ih]; ring

theorem groupBySum_total_aux [DecidableEq κ] (key : Row → κ) (val : Row → Rat) :
    ∀ n (df : List Row), df.length ≤ n →
      ((fo (df.map key)).map
        (fun g => ((df.filter (fun r => decide (key r = g))).map val).sum)).sum
        = (df.map val).sum := by
  intro n
  induction n with
  | zero =>
    intro df h
    have : df = [] := List.eq_nil_of_length_eq_zero (Nat.le_zero.mp h)
    subst this; simp [fo, foAux]
  | succ n ih =>
    intro df h
    match df with
    | [] => simp [fo, foAux]
    | r :: t =>
      rw [List.map_cons, fo_cons]
      have hmapfilter :
          (t.map key).filter (fun y => decide (y ≠ key r))
            = (t.filter (fun s => decide (key s ≠ key r))).map key := by
        rw [List.filter_map]
        rfl
      rw [hmapfilter]
      set df2 := t.filter (fun s => decide (key s ≠ key r)) with hdf2
      have hlen : df2.length ≤ n :=
        Nat.le_trans (List.length_filter_le _ t) (Nat.le_of_succ_le_succ h)
      rw [List.map_cons, List.sum_cons]
      have hcongr :
          (fo (df2.map key)).map
              (fun g => (((r :: t).filter (fun s => decide (key s = g))).map val).sum)
            = (fo (df2.map key)).map
              (fun g => ((df2.filter (fun s => decide (key s = g))).map val).sum) := by
        refine List.map_congr_left fun g hg => ?_
        have hgne : g ≠ key r := by
          rcases List.mem_map.mp ((mem_fo _ _).mp hg) with ⟨s, hs, rfl⟩
          have h3 := List.of_mem_filter hs
          simpa using h3
        have hhead : (r :: t).filter (fun s => decide (key s = g))
            = t.filter (fun s => decide (key s = g)) := by
          rw [List.filter_cons, if_neg (by
            simp only [decide_eq_true_eq]
            exact fun hh => hgne hh.symm)]
        have htail : df2.filter (fun s => decide (key s = g))
            = t.filter (fun s => decide (key s = g)) := by
          rw [hdf2, List.filter_filter]
          refine List.filter_congr fun s _ => ?_
          rcases Decidable.em (key s = g) with h2 | h2
          · have h4 : key s ≠ key r := fun hh => hgne (h2.symm.trans hh)
            simp [h2, h4, hgne]
          · simp [h2]
        rw [hhead, htail]
      rw [hcongr, ih df2 hlen]
      have hsplit := sum_filter_add_sum_filter_not
        (fun s => decide (key s = key r)) val (r :: t)
      have hnot : (r :: t).filter (fun s => !decide (key s = key r)) = df2 := by
        rw [hdf2, List.filter_cons, if_neg (by simp)]
        refine List.filter_congr fun s _ => ?_
        simp
      rw [hnot] at hsplit
      exact hsplit

theorem groupBySum_lookup [DecidableEq κ] (key : Row → κ) (val : Row → Rat)
    (df : List Row) (g : κ) :
    (groupBySum key val df).lookup g =
      if g ∈ df.map key
      then some (((df.filter (fun r => decide (key r = g))).map val).sum)
      else none := by
  rw [groupBySum, lookup_map_self _ _ (nodup_fo _)]
  rcases Decidable.em (g ∈ df.map key) with h | h
  · rw [if_pos ((mem_fo _ _).mpr h), if_pos h]
  · rw [if_neg (fun hh => h ((mem_fo _ _).mp hh)), if_neg h]

theorem groupBySum_total [DecidableEq κ] (key : Row → κ) (val : Row → Rat)
    (df : List Row) :
    ((groupBySum key val df).map (fun p => p.2)).sum = (df.map val).sum := by
  rw [groupBySum, List.map_map]
  exact groupBySum_total_aux key val df.length df (Nat.le_refl _)

/-- Claim C2: the group-by-sum of `USRCPUT_TIMER` by `SMFMNSPN` assigns to
each region the sum of `USRCPUT_TIMER` over exactly the rows with that
region (and mentions no other region), and the per-group values sum to the
`USRCPUT_TIMER` total of the grouped dataframe. -/
theorem counterPairs_map_fst (toks : List String) :
    (counterPairs toks).map Prod.fst = fo toks := by
  rw [counterPairs, List.map_map]
  exact List.map_id _

/-- Claim C7: every pair of `word_c` carries the exact multiplicity of its
token in the space-joined, whitespace-split text; every token of the text
appears exactly once among the pairs; and the pairs are ordered by
non-increasing count. -/
theorem claim_C7 (lines : List String) :
    (∀ p ∈ word_c lines, p.2 = (wcTokens lines).count p.1) ∧
    (∀ w : String, w ∈ (word_c lines).map Prod.fst ↔ w ∈ wcTokens lines) ∧
    ((word_c lines).map Prod.fst).Nodup ∧
    (word_c lines).Pairwise (fun a b => b.2 ≤ a.2) := by
  have hperm : List.Perm (word_c lines) (counterPairs (wcTokens lines)) :=
    List.perm_insertionSort geCntP _
  have hmapperm := hperm.map Prod.fst
  refine ⟨?_, ?_, ?_, ?_⟩
  · intro p hp
    have hp2 := hperm.mem_iff.mp hp
    rcases List.mem_map.mp hp2 with ⟨w, _, rfl⟩
    rfl
  · intro w
    rw [hmapperm.mem_iff, counterPairs_map_fst, mem_fo]
  · rw [hmapperm.nodup_iff, counterPairs_map_fst]
    exact nodup_fo _
  · exact List.sorted_insertionSort geCntP _

/-- Claim C10: `orig_smf110_df` is taken before the CICS filter, and the
filter and every later state-changing cell leave it equal to the full
dataframe of all rows. -/
theorem claim_C10 (df : List Row) (st : NbState) (hst : st ∈ statesAfterCopy df) :
    st.orig = df := by
  simp only [statesAfterCopy, postCopySteps, List.scanl, List.mem_cons,
    List.not_mem_nil, or_false] at hst
  rcases hst with rfl | rfl | rfl | rfl <;> rfl

/-- Witness for C10: the state right after the copy, on a concrete
dataframe. -/
theorem claim_C10_witness : (stepCopyOrig (loadState dfHalf)).orig = dfHalf :=
  claim_C10 dfHalf (stepCopyOrig (loadState dfHalf)) (by
    simp [statesAfterCopy, postCopySteps, List.scanl])

/-- Claim C8: no notebook code catches, retries or translates errors: a
failing `read_json` is the JSON pipeline's exact error, a failing
`get_credentials` is the Spark pipeline's exact error, and a missing
`SMFMNRST` column surfaces as the library's own `KeyError`. -/
theorem claim_C8 :
    (∀ (fs : String → Option DynDf) (path : String) (e : PyError),
        read_json fs path = .error e → jsonPipeline fs path = .error e) ∧
    (∀ (fs : String → Option (List String)) (path : String) (table : List Row)
        (e : PyError),
        get_credentials fs path = .error e → sparkPipeline fs path table = .error e) ∧
    (∀ d : DynDf, "SMFMNRST" ∉ d.cols →
        jsonThenClean d = .error (.keyError "SMFMNRST")) := by
  refine ⟨?_, ?_, ?_⟩
  · intro fs path e h
    rw [jsonPipeline, h]
  · intro fs path table e h
    rw [sparkPipeline, h]
  · intro d hd
    rw [jsonThenClean, requireCol, if_neg hd]

/-- Witness for C8: a missing JSON path, a missing credentials file, and a
dataframe lacking the `SMFMNRST` column. -/
theorem claim_C8_witness :
    jsonPipeline (fun _ => none) "smf110.json" = .error (.fileNotFound "smf110.json") ∧
    sparkPipeline (fun _ => none) "creds.txt" [] = .error (.fileNotFound "creds.txt") ∧
    jsonThenClean { cols := [], rows := [] } = .error (.keyError "SMFMNRST") :=
  ⟨claim_C8.1 (fun _ => none) "smf110.json" (.fileNotFound "smf110.json") rfl,
   claim_C8.2.1 (fun _ => none) "creds.txt" [] (.fileNotFound "creds.txt") rfl,
   claim_C8.2.2 { cols := [], rows := [] } (List.not_mem_nil _)⟩

theorem claim_C2 (df : List Row) (g : String) :
    ((cpu_time_per_region df).lookup g =
      if g ∈ df.map (fun r => r.SMFMNSPN)
      then some (((df.filter (fun r => decide (r.SMFMNSPN = g))).map
          (fun r => r.USRCPUT_TIMER)).sum)
      else none) ∧
    ((cpu_time_per_region df).map (fun p => p.2)).sum =
      (df.map (fun r => r.USRCPUT_TIMER)).sum :=
  ⟨groupBySum_lookup _ _ df g, groupBySum_total _ _ df⟩

/-! ### Dtype lemmas for the data-cleaning cell -/

theorem astypeInt_isVInt {v w : PValue} (h : astypeInt v = .ok w) :
    w.isVInt = true := by
  cases v with
  | VInt n => cases h; rfl
  | VFloat q => cases h; rfl
  | VDateTime n => cases h; rfl
  | VStr s =>
    rw [astypeInt] at h
    cases hs : s.toInt? with
    | none => rw [hs] at h; cases h
    | some n => rw [hs] at h; cases h; rfl

theorem astypeFloat_isVFloat {v w : PValue} (h : astypeFloat v = .ok w) :
    w.isVFloat = true := by
  cases v with
  | VInt n => cases h; rfl
  | VFloat q => cases h; rfl
  | VDateTime n => cases h
  | VStr s =>
    rw [astypeFloat] at h
    cases hs : s.toInt? with
    | none => rw [hs] at h; cases h
    | some n => rw [hs] at h; cases h; rfl

theorem toDatetimeMs_isVDateTime {v w : PValue} (h : toDatetimeMs v = .ok w) :
    w.isVDateTime = true := by
  cases v with
  | VInt n => cases h; rfl
  | VFloat q => cases h; rfl
  | VDateTime n => cases h; rfl
  | VStr s => cases h

theorem castRow_fields {r r2 : DRow} (h : castRow r = .ok r2) :
    r2.dTRANNUM.isVInt = true ∧ r2.dUSRCPUT_TIMER.isVFloat = true ∧
    r2.dUSRCPUT_COUNT.isVInt = true ∧ r2.dSMFMNRST = r.dSMFMNRST := by
  rw [castRow] at h
  cases h1 : astypeInt r.dTRANNUM with
  | error e =>
    simp only [h1] at h
    exact Except.noConfusion h
  | ok tn =>
    simp only [h1] at h
    cases h2 : astypeFloat r.dUSRCPUT_TIMER with
    | error e =>
      simp only [h2] at h
      exact Except.noConfusion h
    | ok ut =>
      simp only [h2] at h
      cases h3 : astypeInt r.dUSRCPUT_COUNT with
      | error e =>
        simp only [h3] at h
        exact Except.noConfusion h
      | ok uc =>
        simp only [h3] at h
        cases h
        exact ⟨astypeInt_isVInt h1, astypeFloat_isVFloat h2, astypeInt_isVInt h3, rfl⟩

theorem mapDatetimeRows_mem :
    ∀ {rows rows2 : List DRow}, mapDatetimeRows rows = .ok rows2 →
      ∀ r2 ∈ rows2, r2.dSMFMNRST.isVDateTime = true := by
  intro rows
  induction rows with
  | nil =>
    intro rows2 h r2 hr2
    cases h
    cases hr2
  | cons r rs ih =>
    intro rows2 h r2 hr2
    rw [mapDatetimeRows] at h
    cases h1 : toDatetimeMs r.dSMFMNRST with
    | error e =>
    simp only [h1] at h
    exact Except.noConfusion h
    | ok v =>
      simp only [h1] at h
      cases h2 : mapDatetimeRows rs with
      | error e =>
      simp only [h2] at h
      exact Except.noConfusion h
      | ok rest =>
        simp only [h2] at h
        cases h
        rcases List.mem_cons.mp hr2 with rfl | hr2
        · exact toDatetimeMs_isVDateTime h1
        · exact ih h2 r2 hr2

theorem castRows_mem :
    ∀ {rows rows2 : List DRow}, castRows rows = .ok rows2 →
      ∀ r2 ∈ rows2, ∃ r1 ∈ rows, castRow r1 = .ok r2 := by
  intro rows
  induction rows with
  | nil =>
    intro rows2 h r2 hr2
    cases h
    cases hr2
  | cons r rs ih =>
    intro rows2 h r2 hr2
    rw [castRows] at h
    cases h1 : castRow r with
    | error e =>
    simp only [h1] at h
    exact Except.noConfusion h
    | ok r1c =>
      simp only [h1] at h
      cases h2 : castRows rs with
      | error e =>
      simp only [h2] at h
      exact Except.noConfusion h
      | ok rest =>
        simp only [h2] at h
        cases h
        rcases List.mem_cons.mp hr2 with rfl | hr2
        · exact ⟨r, List.mem_cons_self _ _, h1⟩
        · rcases ih h2 r2 hr2 with ⟨r1, hr1, hc⟩
          exact ⟨r1, List.mem_cons_of_mem _ hr1, hc⟩

theorem jsonThenClean_rows {d d2 : DynDf} (h : jsonThenClean d = .ok d2) :
    ∃ rows1, mapDatetimeRows d.rows = .ok rows1 ∧ castRows rows1 = .ok d2.rows := by
  rw [jsonThenClean] at h
  cases hc1 : requireCol d "SMFMNRST" with
  | error e =>
    simp only [hc1] at h
    exact Except.noConfusion h
  | ok u1 =>
    simp only [hc1] at h
    cases hm : mapDatetimeRows d.rows with
    | error e =>
      simp only [hm] at h
      exact Except.noConfusion h
    | ok rows1 =>
      simp only [hm] at h
      cases hc2 : requireCol d "TRANNUM" with
      | error e =>
        simp only [hc2] at h
        exact Except.noConfusion h
      | ok u2 =>
        simp only [hc2] at h
        cases hc3 : requireCol d "USRCPUT_TIMER" with
        | error e =>
          simp only [hc3] at h
          exact Except.noConfusion h
        | ok u3 =>
          simp only [hc3] at h
          cases hc4 : requireCol d "USRCPUT_COUNT" with
          | error e =>
            simp only [hc4] at h
            exact Except.noConfusion h
          | ok u4 =>
            simp only [hc4] at h
            cases hr : castRows rows1 with
            | error e =>
              simp only [hr] at h
              exact Except.noConfusion h
            | ok rows2 =>
              simp only [hr] at h
              cases h
              exact ⟨rows1, rfl, hr⟩

/-- Claim C6: when the `to_datetime` conversion and the three `astype` casts
succeed, every row of the cleaned dataframe carries an integer `TRANNUM`, a
float `USRCPUT_TIMER`, an integer `USRCPUT_COUNT` and a datetime `SMFMNRST`,
and the later filtering operations preserve this typing. -/
theorem claim_C6 (d d2 : DynDf) (h : jsonThenClean d = .ok d2) :
    (∀ r ∈ d2.rows, wellTyped r) ∧
    (∀ r ∈ dynCicsFilter d2.rows, wellTyped r) ∧
    (∀ r ∈ dynTranFilter (dynCicsFilter d2.rows), wellTyped r) := by
  rcases jsonThenClean_rows h with ⟨rows1, hm, hr⟩
  have hmain : ∀ r ∈ d2.rows, wellTyped r := by
    intro r2 hr2
    rcases castRows_mem hr r2 hr2 with ⟨r1, hr1, hc⟩
    rcases castRow_fields hc with ⟨h1, h2, h3, h4⟩
    refine ⟨h1, h2, h3, ?_⟩
    rw [h4]
    exact mapDatetimeRows_mem hm r1 hr1
  refine ⟨hmain, ?_, ?_⟩
  · intro r hr2
    exact hmain r (List.mem_of_mem_filter hr2)
  · intro r hr2
    have hr3 := List.mem_of_mem_filter hr2
    have hr4 := List.mem_of_mem_filter hr3
    exact hmain r (List.mem_of_mem_filter hr4)

/-- Witness for C6: a concrete dataframe whose casts succeed, with the
typed row exhibited. -/
theorem claim_C6_witness : wellTyped dynRowW2 :=
  (claim_C6 dynDfW dynDfW2 (by with_unfolding_all rfl)).1 dynRowW2
    (List.mem_cons_self dynRowW2 [])

/-! ### The CPU-percentage cell -/

theorem sum_map_div (l : List Rat) (c : Rat) :
    (l.map (fun x => x / c)).sum = l.sum / c := by
  induction l with
  | nil => simp
  | cons x xs ih =>
    rw [List.map_cons, List.sum_cons, List.sum_cons, ih, add_div]

theorem filteredTranDf_sublist (df : List Row) : (filteredTranDf df).Sublist df := by
  rw [filteredTranDf, tranRegionFilter, cicsFilter]
  exact ((List.filter_sublist _).trans (List.filter_sublist _)).trans
    (List.filter_sublist _)

/-- Claim C9 (amended): each reported value is the group's `USRCPUT_TIMER`
sum over `smf110_filtered_tran_df` divided by the `USRCPUT_TIMER` total of
the entire original unfiltered dataframe; when all timers are nonnegative
and that total is positive the reported percentages sum to at most 1, and
they need not sum to 1 (on `dfHalf` they sum to 1/2). -/
theorem claim_C9 (df : List Row) :
    (∀ p ∈ cpu_percentage_per_region df,
        p.2 = (((filteredTranDf df).filter
            (fun r => decide ((r.SMF_SID, r.SMFMNSPN) = p.1))).map
              (fun r => r.USRCPUT_TIMER)).sum / timerTotal df) ∧
    ((∀ r ∈ df, 0 ≤ r.USRCPUT_TIMER) → 0 < timerTotal df → percSum df ≤ 1) ∧
    percSum dfHalf < 1 := by
  refine ⟨?_, ?_, by with_unfolding_all decide⟩
  · intro p hp
    rw [cpu_percentage_per_region] at hp
    rcases List.mem_map.mp hp with ⟨q, hq, rfl⟩
    rw [groupBySum] at hq
    rcases List.mem_map.mp hq with ⟨g, _, rfl⟩
    rfl
  · intro hnn hpos
    have hps : percSum df =
        ((groupBySum (fun r => (r.SMF_SID, r.SMFMNSPN)) (fun r => r.USRCPUT_TIMER)
          (filteredTranDf df)).map (fun p => p.2)).sum / timerTotal df := by
      rw [percSum, cpu_percentage_per_region, List.map_map, ← sum_map_div,
        List.map_map]
      rfl
    rw [hps, groupBySum_total]
    rw [div_le_one hpos]
    have hsub : ((filteredTranDf df).map (fun r => r.USRCPUT_TIMER)).Sublist
        (df.map (fun r => r.USRCPUT_TIMER)) :=
      (filteredTranDf_sublist df).map _
    refine hsub.sum_le_sum ?_
    intro x hx
    rcases List.mem_map.mp hx with ⟨r, hr, rfl⟩
    exact hnn r hr

/-- Witness for C9 on a concrete nonnegative dataframe with positive
total. -/
theorem claim_C9_witness : percSum dfHalf ≤ 1 :=
  (claim_C9 dfHalf).2.1 (by with_unfolding_all decide) (by with_unfolding_all decide)

/-- Counterexample to C9 as stated: on `dfNegDropped` (a dropped row with
negative CPU time) the reported percentages sum to 2, exceeding 1. -/
theorem claim_C9_counterexample : ¬ (percSum dfNegDropped ≤ 1) := by
  with_unfolding_all decide

/-! ### The transaction-rate loop: index structure -/

theorem pivotKeys_sorted (df : List Row) : (pivotKeys df).Pairwise keyLeP :=
  List.sorted_insertionSort keyLeP _

theorem pivotKeys_nodup (df : List Row) : (pivotKeys df).Nodup :=
  (List.perm_insertionSort keyLeP _).nodup_iff.mpr (List.nodup_dedup _)

theorem mem_pivotKeys (df : List Row) (k : PKey) :
    k ∈ pivotKeys df ↔ ∃ r ∈ df, rowKey r = k := by
  rw [pivotKeys, (List.perm_insertionSort keyLeP _).mem_iff, List.mem_dedup,
    List.mem_map]

theorem keyLeP_region {a b : PKey} (h : keyLeP a b) (hab : a.1 = b.1) :
    a.2.1 ≤ b.2.1 := by
  rw [keyLeP, Prod.Lex.le_iff] at h
  dsimp only at h
  rcases h with h | ⟨_, h2⟩
  · rw [hab] at h
    exact absurd h (lt_irrefl _)
  · rw [Prod.Lex.le_iff] at h2
    dsimp only at h2
    rcases h2 with h2 | ⟨h2, _⟩
    · exact le_of_lt h2
    · exact le_of_eq h2

theorem pivotKeys_sid {df : List Row} {s : String} (hs : ∀ r ∈ df, r.SMF_SID = s) :
    ∀ k ∈ pivotKeys df, k.1 = s := by
  intro k hk
  rcases (mem_pivotKeys df k).mp hk with ⟨r, hr, rfl⟩
  exact hs r hr

theorem regionsOf_sorted {df : List Row} {s : String}
    (hsid : ∀ k ∈ pivotKeys df, k.1 = s) :
    (regionsOf df).Pairwise (fun a b => a ≤ b) := by
  rw [regionsOf, List.pairwise_map]
  refine (pivotKeys_sorted df).imp_of_mem ?_
  intro a b ha hb hr
  exact keyLeP_region hr ((hsid a ha).trans (hsid b hb).symm)

theorem dedup_allEq :
    ∀ (l : List String) (s : String), l ≠ [] → (∀ x ∈ l, x = s) → l.dedup = [s] := by
  intro l
  induction l with
  | nil => intro s hne _; exact absurd rfl hne
  | cons x xs ih =>
    intro s _ h
    have hx : x = s := h x (List.mem_cons_self _ _)
    cases xs with
    | nil => rw [List.dedup_cons_of_not_mem (List.not_mem_nil x), List.dedup_nil, hx]
    | cons y ys =>
      have hy : y = s := h y (List.mem_cons_of_mem _ (List.mem_cons_self _ _))
      have hmem : x ∈ y :: ys := by
        rw [hx, ← hy]
        exact List.mem_cons_self _ _
      rw [List.dedup_cons_of_mem hmem]
      exact ih s (by simp) (fun z hz => h z (List.mem_cons_of_mem _ hz))

theorem sysIds_single {df : List Row} {s : String} (hne : pivotKeys df ≠ [])
    (hsid : ∀ k ∈ pivotKeys df, k.1 = s) : sysIds df = [s] := by
  have h1 : (pivotKeys df).map (fun k => k.1) ≠ [] := by
    intro hmap
    exact hne (List.map_eq_nil_iff.mp hmap)
  have h2 : ∀ x ∈ (pivotKeys df).map (fun k => k.1), x = s := by
    intro x hx
    rcases List.mem_map.mp hx with ⟨k, hk, rfl⟩
    exact hsid k hk
  rw [sysIds, dedup_allEq _ s h1 h2]
  rfl

theorem bump_not_mem (k : RKey) :
    ∀ (d : List (RKey × Nat)), k ∉ d.map Prod.fst → bump k d = d ++ [(k, 1)] := by
  intro d
  induction d with
  | nil => intro _; rfl
  | cons e rest ih =>
    intro h
    obtain ⟨j, n⟩ := e
    rw [List.map_cons, List.mem_cons] at h
    push_neg at h
    rw [bump, if_neg (fun hj => h.1 hj.symm), ih h.2, List.cons_append]

theorem bump_mem_last (k : RKey) (m : Nat) :
    ∀ (d : List (RKey × Nat)), k ∉ d.map Prod.fst →
      bump k (d ++ [(k, m)]) = d ++ [(k, m + 1)] := by
  intro d
  induction d with
  | nil =>
    intro _
    rw [List.nil_append, List.nil_append, bump, if_pos rfl]
  | cons e rest ih =>
    intro h
    obtain ⟨j, n⟩ := e
    rw [List.map_cons, List.mem_cons] at h
    push_neg at h
    rw [List.cons_append, bump, if_neg (fun hj => h.1 hj.symm), ih h.2,
      List.cons_append]

theorem foldl_bump_replicate (s x : String) :
    ∀ (c m : Nat) (d : List (RKey × Nat)), (s, x) ∉ d.map Prod.fst →
      List.foldl (fun d2 r => bump (s, r) d2) (d ++ [((s, x), m)])
          (List.replicate c x)
        = d ++ [((s, x), m + c)] := by
  intro c
  induction c with
  | zero => intro m d _; rfl
  | succ c ih =>
    intro m d hd
    rw [List.replicate_succ, List.foldl_cons, bump_mem_last _ _ _ hd, ih (m + 1) d hd]
    congr 3
    omega

theorem sorted_head_split :
    ∀ (l : List String) (x : String), (x :: l).Pairwise (fun a b => a ≤ b) →
      x :: l = List.replicate ((x :: l).count x) x
        ++ l.filter (fun y => decide (y ≠ x)) := by
  intro l
  induction l with
  | nil =>
    intro x _
    simp [List.count_cons]
  | cons y t ih =>
    intro x hp
    by_cases hyx : y = x
    · subst hyx
      have hp2 : (y :: t).Pairwise (fun a b => a ≤ b) :=
        hp.sublist (List.sublist_cons_self y (y :: t))
      have hcount : (y :: y :: t).count y = (y :: t).count y + 1 := by
        rw [List.count_cons]
        simp
      rw [hcount, List.replicate_succ, List.filter_cons, if_neg (by simp),
        List.cons_append, ← ih y hp2]
    · have hxy : x ≤ y := (List.pairwise_cons.mp hp).1 y (List.mem_cons_self _ _)
      have hyt : ∀ z ∈ t, y ≤ z :=
        (List.pairwise_cons.mp (List.pairwise_cons.mp hp).2).1
      have hnmem : x ∉ y :: t := by
        intro hm
        rcases List.mem_cons.mp hm with h | hm2
        · exact hyx h.symm
        · exact hyx (le_antisymm (hyt x hm2) hxy)
      have hcount : (x :: y :: t).count x = 1 := by
        rw [List.count_cons, List.count_eq_zero.mpr hnmem]
        simp
      have hfilter : (y :: t).filter (fun z => decide (z ≠ x)) = y :: t := by
        rw [List.filter_eq_self]
        intro z hz
        simp only [ne_eq, decide_eq_true_eq]
        intro hzx
        rw [hzx] at hz
        exact hnmem hz
      rw [hcount, hfilter]
      rfl

theorem foldl_bump_sorted (s : String) :
    ∀ (n : Nat) (xs : List String), xs.length ≤ n →
      xs.Pairwise (fun a b => a ≤ b) →
      ∀ (d : List (RKey × Nat)), (∀ r ∈ xs, (s, r) ∉ d.map Prod.fst) →
        List.foldl (fun d2 r => bump (s, r) d2) d xs
          = d ++ (fo xs).map (fun x => ((s, x), xs.count x)) := by
  intro n
  induction n with
  | zero =>
    intro xs hlen _ d _
    have hxs : xs = [] := List.eq_nil_of_length_eq_zero (Nat.le_zero.mp hlen)
    subst hxs
    simp [fo, foAux]
  | succ n ih =>
    intro xs hlen hsort d hd
    match xs, hlen, hsort, hd with
    | [], _, _, _ => simp [fo, foAux]
    | x :: t, hlen, hsort, hd =>
      have hsplit := sorted_head_split t x hsort
      have hcpos : 0 < (x :: t).count x :=
        List.count_pos_iff.mpr (List.mem_cons_self _ _)
      obtain ⟨c2, hc2⟩ : ∃ c2, (x :: t).count x = c2 + 1 :=
        ⟨(x :: t).count x - 1, by omega⟩
      have hdx : (s, x) ∉ d.map Prod.fst := hd x (List.mem_cons_self _ _)
      have hfoldsplit : List.foldl (fun d2 r => bump (s, r) d2) d (x :: t)
          = List.foldl (fun d2 r => bump (s, r) d2)
              (List.foldl (fun d2 r => bump (s, r) d2) d
                (List.replicate ((x :: t).count x) x))
              (t.filter (fun z => decide (z ≠ x))) := by
        conv_lhs => rw [hsplit]
        rw [List.foldl_append]
      have hfold1 : List.foldl (fun d2 r => bump (s, r) d2) d
          (List.replicate ((x :: t).count x) x) = d ++ [((s, x), (x :: t).count x)] := by
        rw [hc2, List.replicate_succ, List.foldl_cons, bump_not_mem _ d hdx,
          foldl_bump_replicate s x c2 1 d hdx]
        congr 3
        omega
      rw [hfoldsplit, hfold1]
      have hrest_sorted : (t.filter (fun z => decide (z ≠ x))).Pairwise
          (fun a b => a ≤ b) :=
        hsort.sublist ((List.filter_sublist t).trans (List.sublist_cons_self x t))
      have hrest_len : (t.filter (fun z => decide (z ≠ x))).length ≤ n :=
        Nat.le_trans (List.length_filter_le _ t) (Nat.le_of_succ_le_succ hlen)
      have hrest_keys : ∀ r ∈ t.filter (fun z => decide (z ≠ x)),
          (s, r) ∉ (d ++ [((s, x), (x :: t).count x)]).map Prod.fst := by
        intro r hr
        have hrx : r ≠ x := by
          have h3 := List.of_mem_filter hr
          simpa using h3
        have hrd : (s, r) ∉ d.map Prod.fst :=
          hd r (List.mem_cons_of_mem _ (List.mem_of_mem_filter hr))
        rw [List.map_append, List.mem_append]
        rintro (h | h)
        · exact hrd h
        · simp only [List.map_cons, List.map_nil, List.mem_singleton,
            Prod.mk.injEq] at h
          exact hrx h.2
      rw [ih _ hrest_len hrest_sorted _ hrest_keys, List.append_assoc]
      congr 1
      rw [fo_cons, List.map_cons, List.singleton_append]
      congr 1
      refine List.map_congr_left fun r hr => ?_
      have hrt : r ∈ t.filter (fun z => decide (z ≠ x)) := (mem_fo _ _).mp hr
      have hrx : r ≠ x := by
        have h3 := List.of_mem_filter hrt
        simpa using h3
      have hcnt : (t.filter (fun z => decide (z ≠ x))).count r = (x :: t).count r := by
        rw [List.count_filter (by simpa using hrx), List.count_cons,
          if_neg (by simpa using fun h => hrx h.symm)]
        omega
      rw [hcnt]

theorem sorted_keys_take_drop :
    ∀ (ks : List PKey) (x : String),
      (x :: ks.map (fun k2 => k2.2.1)).Pairwise (fun a b => a ≤ b) →
      ks.take ((ks.map (fun k2 => k2.2.1)).count x)
          = ks.filter (fun k2 => decide (k2.2.1 = x))
        ∧ ks.drop ((ks.map (fun k2 => k2.2.1)).count x)
          = ks.filter (fun k2 => decide (k2.2.1 ≠ x)) := by
  intro ks
  induction ks with
  | nil => intro x _; exact ⟨rfl, rfl⟩
  | cons k t ih =>
    intro x hp
    rw [List.map_cons] at hp
    by_cases hkx : k.2.1 = x
    · have hp2 : (x :: t.map (fun k2 => k2.2.1)).Pairwise (fun a b => a ≤ b) :=
        hp.sublist (List.Sublist.cons₂ x (List.sublist_cons_self _ _))
      rcases ih x hp2 with ⟨iht, ihd⟩
      have hcount : ((k :: t).map (fun k2 => k2.2.1)).count x
          = (t.map (fun k2 => k2.2.1)).count x + 1 := by
        rw [List.map_cons, List.count_cons, if_pos (by simpa using hkx)]
      constructor
      · rw [hcount, List.take_succ_cons, List.filter_cons,
          if_pos (by simpa using hkx), iht]
      · rw [hcount, List.drop_succ_cons, List.filter_cons,
          if_neg (by simp [hkx]), ihd]
    · have h1 : x ≤ k.2.1 := (List.pairwise_cons.mp hp).1 _ (List.mem_cons_self _ _)
      have h2 : ∀ z ∈ t.map (fun k2 => k2.2.1), k.2.1 ≤ z :=
        (List.pairwise_cons.mp (List.pairwise_cons.mp hp).2).1
      have hnmem : x ∉ (k :: t).map (fun k2 => k2.2.1) := by
        rw [List.map_cons, List.mem_cons]
        rintro (h | hm)
        · exact hkx h.symm
        · exact hkx (le_antisymm (h2 x hm) h1)
      have hcount : ((k :: t).map (fun k2 => k2.2.1)).count x = 0 :=
        List.count_eq_zero.mpr hnmem
      have hfilter1 : (k :: t).filter (fun k2 => decide (k2.2.1 = x)) = [] := by
        rw [List.filter_eq_nil_iff]
        intro a ha
        simp only [decide_eq_true_eq]
        intro hax
        exact hnmem (hax ▸ List.mem_map_of_mem _ ha)
      have hfilter2 : (k :: t).filter (fun k2 => decide (k2.2.1 ≠ x)) = k :: t := by
        rw [List.filter_eq_self]
        intro a ha
        simp only [ne_eq, decide_eq_true_eq]
        intro hax
        exact hnmem (hax ▸ List.mem_map_of_mem _ ha)
      rw [hcount, hfilter1, hfilter2]
      exact ⟨rfl, rfl⟩

theorem slicesAux_sorted (s : String) :
    ∀ (n : Nat) (ks : List PKey), ks.length ≤ n →
      (ks.map (fun k2 => k2.2.1)).Pairwise (fun a b => a ≤ b) →
      slicesAux ks ((fo (ks.map (fun k2 => k2.2.1))).map
          (fun x => ((s, x), (ks.map (fun k2 => k2.2.1)).count x)))
        = (fo (ks.map (fun k2 => k2.2.1))).map
          (fun x => ((s, x), ks.filter (fun k2 => decide (k2.2.1 = x)))) := by
  intro n
  induction n with
  | zero =>
    intro ks hlen _
    have hks : ks = [] := List.eq_nil_of_length_eq_zero (Nat.le_zero.mp hlen)
    subst hks
    rfl
  | succ n ih =>
    intro ks hlen hsort
    match ks, hlen, hsort with
    | [], _, _ => rfl
    | k :: t, hlen, hsort =>
      have hsortt : (t.map (fun k2 => k2.2.1)).Pairwise (fun a b => a ≤ b) := by
        rw [List.map_cons] at hsort
        exact (List.pairwise_cons.mp hsort).2
      have hp2 : (k.2.1 :: (k :: t).map (fun k2 => k2.2.1)).Pairwise
          (fun a b => a ≤ b) := by
        rw [List.map_cons]
        rw [List.map_cons] at hsort
        refine List.Pairwise.cons ?_ hsort
        intro b hb
        rcases List.mem_cons.mp hb with h | hbm
        · rw [h]
        · exact (List.pairwise_cons.mp hsort).1 b hbm
      rcases sorted_keys_take_drop (k :: t) k.2.1 hp2 with ⟨htake, hdrop⟩
      rw [List.map_cons] at htake hdrop
      have hks2 : (k :: t).filter (fun k2 => decide (k2.2.1 ≠ k.2.1))
          = t.filter (fun k2 => decide (k2.2.1 ≠ k.2.1)) := by
        rw [List.filter_cons, if_neg (by simp)]
      have hmap2 : (t.filter (fun k2 => decide (k2.2.1 ≠ k.2.1))).map (fun k2 => k2.2.1)
          = (t.map (fun k2 => k2.2.1)).filter (fun y => decide (y ≠ k.2.1)) := by
        rw [List.filter_map]
        rfl
      have hlen2 : (t.filter (fun k2 => decide (k2.2.1 ≠ k.2.1))).length ≤ n :=
        Nat.le_trans (List.length_filter_le _ t) (Nat.le_of_succ_le_succ hlen)
      have hsort2 : ((t.filter (fun k2 => decide (k2.2.1 ≠ k.2.1))).map
          (fun k2 => k2.2.1)).Pairwise (fun a b => a ≤ b) := by
        rw [hmap2]
        exact hsortt.sublist (List.filter_sublist _)
      have haveA : (fo ((t.map (fun k2 => k2.2.1)).filter
            (fun y => decide (y ≠ k.2.1)))).map
            (fun x => ((s, x), (k.2.1 :: t.map (fun k2 => k2.2.1)).count x))
          = (fo ((t.filter (fun k2 => decide (k2.2.1 ≠ k.2.1))).map
              (fun k2 => k2.2.1))).map
            (fun x => ((s, x),
              ((t.filter (fun k2 => decide (k2.2.1 ≠ k.2.1))).map
                (fun k2 => k2.2.1)).count x)) := by
        rw [hmap2]
        refine List.map_congr_left fun x hx => ?_
        have hxne : x ≠ k.2.1 := by
          have h3 := List.of_mem_filter ((mem_fo _ _).mp hx)
          simpa using h3
        have hcf : ((t.map (fun k2 => k2.2.1)).filter
            (fun y => decide (y ≠ k.2.1))).count x
            = (t.map (fun k2 => k2.2.1)).count x :=
          List.count_filter (by simpa using hxne)
        rw [hcf, List.count_cons, if_neg (by simpa using fun h => hxne h.symm)]
        simp
      have haveB : (fo ((t.filter (fun k2 => decide (k2.2.1 ≠ k.2.1))).map
            (fun k2 => k2.2.1))).map
            (fun x => ((s, x), (t.filter (fun k2 => decide (k2.2.1 ≠ k.2.1))).filter
              (fun k2 => decide (k2.2.1 = x))))
          = (fo ((t.map (fun k2 => k2.2.1)).filter
              (fun y => decide (y ≠ k.2.1)))).map
            (fun x => ((s, x), (k :: t).filter (fun k2 => decide (k2.2.1 = x)))) := by
        rw [hmap2]
        refine List.map_congr_left fun x hx => ?_
        have hxne : x ≠ k.2.1 := by
          have h3 := List.of_mem_filter ((mem_fo _ _).mp hx)
          simpa using h3
        have hfeq : (t.filter (fun k2 => decide (k2.2.1 ≠ k.2.1))).filter
            (fun k2 => decide (k2.2.1 = x))
            = (k :: t).filter (fun k2 => decide (k2.2.1 = x)) := by
          rw [List.filter_filter, List.filter_cons,
            if_neg (by simpa using fun h => hxne h.symm)]
          refine List.filter_congr fun a _ => ?_
          by_cases hax : a.2.1 = x
          · have han : a.2.1 ≠ k.2.1 := fun hh => hxne (hax.symm.trans hh)
            simp [hax, han, hxne]
          · simp [hax]
        rw [hfeq]
      simp only [List.map_cons]
      rw [fo_cons]
      simp only [List.map_cons]
      rw [slicesAux, htake, hdrop]
      congr 1
      rw [hks2, haveA, ih _ hlen2 hsort2, haveB]

theorem slicesFor_eq_aux (keys : List PKey) :
    ∀ (dict : List (RKey × Nat)) (start : Nat),
      slicesFor keys dict start = slicesAux (keys.drop start) dict := by
  intro dict
  induction dict with
  | nil => intro start; rfl
  | cons e rest ih =>
    intro start
    obtain ⟨k2, n⟩ := e
    rw [slicesFor, slicesAux, ih (start + n), List.drop_drop]

theorem lookup_map_rkey (s : String) (G : String → β) :
    ∀ (as : List String), as.Nodup → ∀ (k2 : RKey),
      (as.map (fun x => ((s, x), G x))).lookup k2
        = if k2.1 = s ∧ k2.2 ∈ as then some (G k2.2) else none := by
  intro as
  induction as with
  | nil =>
    intro _ k2
    simp [List.lookup]
  | cons a as ih =>
    intro hnd k2
    rcases List.nodup_cons.mp hnd with ⟨_, hnd2⟩
    rw [List.map_cons]
    by_cases hk : k2 = (s, a)
    · subst hk
      simp [List.lookup, List.mem_cons]
    · have hbeq : (k2 == (s, a)) = false := beq_eq_false_iff_ne.mpr hk
      simp only [List.lookup, hbeq]
      rw [ih hnd2 k2]
      by_cases h1 : k2.1 = s
      · by_cases h2 : k2.2 ∈ as
        · rw [if_pos ⟨h1, h2⟩, if_pos ⟨h1, List.mem_cons_of_mem _ h2⟩]
        · rw [if_neg (fun hh => h2 hh.2), if_neg ?_]
          rintro ⟨hh1, hh2⟩
          rcases List.mem_cons.mp hh2 with hh3 | hh3
          · exact hk (Prod.ext hh1 hh3)
          · exact h2 hh3
      · rw [if_neg (fun hh => h1 hh.1), if_neg (fun hh => h1 hh.1)]

/-- Counterexample to C1 as stated: on the two-system dataframe `dfTwoSys`
the loop's slice for `("S1", "CICS3AAB")` spans both systems' pivot rows and
reports a rate of 2, while the grouped per-second mean of that group is 1,
so `cics_trans_df` is not the grouped-mean library call on every input. -/
theorem claim_C1_counterexample :
    cics_trans_df dfTwoSys ("S1", "CICS3AAB") "MAP" = some 2 ∧
    groupedMean dfTwoSys ("S1", "CICS3AAB") "MAP" = some 1 ∧
    ¬ (cics_trans_df dfTwoSys ("S1", "CICS3AAB") "MAP"
        = groupedMean dfTwoSys ("S1", "CICS3AAB") "MAP") := by
  refine ⟨?_, ?_, ?_⟩ <;> with_unfolding_all decide

/-- Claim C1 (amended): on a dataframe whose rows all carry a single system
id, the nested-loop cell computes exactly the grouped per-second mean: for
every `(system id, CICS region)` column and transaction type, `cics_trans_df`
equals the single grouped-mean library call over the pivot table. -/
theorem claim_C1 (df : List Row) (s : String) (hs : ∀ r ∈ df, r.SMF_SID = s)
    (k2 : RKey) (t : String) :
    cics_trans_df df k2 t = groupedMean df k2 t := by
  have hsid : ∀ k ∈ pivotKeys df, k.1 = s := pivotKeys_sid hs
  cases hks : pivotKeys df with
  | nil =>
    rw [cics_trans_df, groupedMean, numDays, sysIds, regionsOf, hks]
    simp [slicesFor, colMean, List.lookup, List.insertionSort]
  | cons k0 ks0 =>
    have hne : pivotKeys df ≠ [] := by rw [hks]; simp
    have hsys : sysIds df = [s] := sysIds_single hne hsid
    have hregs : (regionsOf df).Pairwise (fun a b => a ≤ b) := regionsOf_sorted hsid
    have hnum : numDays df = (fo (regionsOf df)).map
        (fun x => ((s, x), (regionsOf df).count x)) := by
      rw [numDays, hsys, List.foldl_cons, List.foldl_nil]
      exact foldl_bump_sorted s (regionsOf df).length (regionsOf df) (Nat.le_refl _)
        hregs [] (by intro r _; simp)
    have hregs2 := hregs
    rw [regionsOf] at hregs2
    have hslice : slicesFor (pivotKeys df) (numDays df) 0
        = (fo (regionsOf df)).map
          (fun x => ((s, x), (pivotKeys df).filter (fun ka => decide (ka.2.1 = x)))) := by
      rw [slicesFor_eq_aux, List.drop_zero, hnum, regionsOf]
      exact slicesAux_sorted s (pivotKeys df).length (pivotKeys df) (Nat.le_refl _)
        hregs2
    rw [cics_trans_df, hslice, lookup_map_rkey s _ _ (nodup_fo _) k2]
    by_cases hcase : k2.1 = s ∧ k2.2 ∈ fo (regionsOf df)
    · rw [if_pos hcase]
      have hfeq : (pivotKeys df).filter (fun ka => decide (ka.1 = k2.1 ∧ ka.2.1 = k2.2))
          = (pivotKeys df).filter (fun ka => decide (ka.2.1 = k2.2)) := by
        refine List.filter_congr fun a ha => ?_
        have ha1 : a.1 = s := hsid a ha
        rw [ha1, hcase.1]
        simp
      rw [groupedMean, hfeq]
    · rw [if_neg hcase]
      rw [groupedMean]
      have hfeq : (pivotKeys df).filter
          (fun ka => decide (ka.1 = k2.1 ∧ ka.2.1 = k2.2)) = [] := by
        rw [List.filter_eq_nil_iff]
        intro a ha
        simp only [decide_eq_true_eq]
        rintro ⟨h1, h2⟩
        refine hcase ⟨?_, ?_⟩
        · rw [← h1]
          exact hsid a ha
        · rw [mem_fo, regionsOf, ← h2]
          exact List.mem_map_of_mem _ ha
      rw [hfeq]
      rfl

/-- Witness for C1 on the single-system dataframe `dfOneSys`. -/
theorem claim_C1_witness :
    cics_trans_df dfOneSys ("S1", "CICS3AAB") "MAP"
      = groupedMean dfOneSys ("S1", "CICS3AAB") "MAP" :=
  claim_C1 dfOneSys "S1" (by with_unfolding_all decide) ("S1", "CICS3AAB") "MAP"

end SMF
